import Mathlib

/-!
# Verification of `gemini-chunked-transcribe`

A shallow embedding, in Lean 4, of the chunked audio-transcription pipeline
(`src/gemini_transcribe/transcriber.py`, `api.py`, `cli.py`), together with
proofs and refutations of the claims made by the specification.

Conventions of the embedding:
* audio positions (seconds) are rationals (`ℚ`): the Python code mixes `int`
  configuration values with the `float` duration reported by ffprobe, and all
  the arithmetic performed on them (`+`, `-`, `min`, comparisons) is exact
  field arithmetic, which `ℚ` models;
* the unbounded `while` loop of `split_audio` is embedded with explicit fuel,
  returning `none` when the fuel runs out — non-termination of the Python loop
  corresponds to the embedding returning `none` for every fuel;
* the filesystem is a partial map `String → Option String`;
* remote HTTP interactions are modelled by their observable inputs (status
  codes, response fields) and outputs (`Except` for Python exceptions).
-/

namespace GeminiTranscribe


/-! ## Chunk descriptors and `Transcriber.split_audio`

`split_audio` (transcriber.py lines 111-162) appends dictionaries with keys
`file`, `start`, `end`, `num`; the `file` entry is determined by `num` alone
(`chunk_{num:02d}.wav`), so the descriptor type carries `start`, `end`, `num`
and the file name is modelled separately (`chunkFilePath` below). -/

/-- Python's two-argument `min(a, b)`: `a` if `a <= b` else `b`. -/
def pymin (a b : ℚ) : ℚ := if a ≤ b then a else b

/-- A chunk descriptor, as built by `Transcriber.split_audio`:
`{"file": ..., "start": start, "end": end, "num": chunk_num}`. -/
structure Chunk where
  start : ℚ
  «end» : ℚ
  num : ℕ
deriving DecidableEq

/-- The `while start < duration` loop of `Transcriber.split_audio`
(transcriber.py lines 131-159), with explicit fuel. Each iteration computes
`end = min(start + chunk_duration, duration)`, appends the descriptor, then
sets `start = end - overlap`, `chunk_num += 1`, and breaks after appending
when `end >= duration`. `none` means the fuel was exhausted with the loop
still running. -/
def splitAux (chunk_duration overlap duration : ℚ) :
    ℚ → ℕ → ℕ → Option (List Chunk)
  | _, _, 0 => none
  | start, chunk_num, fuel + 1 =>
    if start < duration then
      let e := pymin (start + chunk_duration) duration
      if duration ≤ e then
        some [⟨start, e, chunk_num⟩]
      else
        (splitAux chunk_duration overlap duration (e - overlap) (chunk_num + 1)
          fuel).map (fun cs => ⟨start, e, chunk_num⟩ :: cs)
    else some []

/-- The chunk plan of `Transcriber.split_audio`: the loop started at
`start = 0`, `chunk_num = 1`. -/
def splitChunks (chunk_duration overlap duration : ℚ) (fuel : ℕ) :
    Option (List Chunk) :=
  splitAux chunk_duration overlap duration 0 1 fuel

/-- The configuration stored by `Transcriber.__init__` (transcriber.py lines
69-93). The constructor performs no validation whatsoever on
`chunk_duration`/`overlap`: it unconditionally stores them (no
`ConfigurationError` type exists anywhere in the code). -/
structure TranscriberConfig where
  chunk_duration : ℚ
  overlap : ℚ
  chunks_dir : List Char

/-- Model of `Transcriber.__init__`: total — it accepts every configuration and merely
stores the fields. -/
def Transcriber.init (chunk_duration overlap : ℚ) (chunks_dir : List Char) :
    TranscriberConfig :=
  ⟨chunk_duration, overlap, chunks_dir⟩

/-! ## The merge stage: combined input and Python `str.format`

`Transcriber.merge_transcripts` (transcriber.py lines 183-206) builds
`combined = "\n\n---\n\n".join(f"[Chunk {i+1}]\n\n{t}" for i, t in
enumerate(transcripts))` and then calls the generation endpoint with
`merge_prompt.format(transcript=combined)`. -/

/-- Python `sep.join(list)`. -/
def strJoin (sep : String) : List String → String
  | [] => ""
  | [s] => s
  | s :: rest => s ++ sep ++ strJoin sep rest

/-- The `combined` string of `merge_transcripts` (transcriber.py lines
197-199). -/
def combineChunks (transcripts : List String) : String :=
  strJoin "\n\n---\n\n"
    (transcripts.enum.map (fun p => "[Chunk " ++ toString (p.1 + 1) ++ "]\n\n" ++ p.2))

/-- The description the spec gives of the merge input, written as its own
primitive recursion for comparison with the `combineChunks` of the code: the blocks
`[Chunk i]` followed by the i-th transcript, in index order, consecutive
blocks separated by the horizontal rule. -/
def mergeInputSpec : ℕ → List String → String
  | _, [] => ""
  | i, [t] => "[Chunk " ++ toString i ++ "]\n\n" ++ t
  | i, t :: ts => "[Chunk " ++ toString i ++ "]\n\n" ++ t ++ "\n\n---\n\n" ++
      mergeInputSpec (i + 1) ts

/-- Python's `template.format(transcript=...)`, restricted to the simple
named replacement fields the code uses: a scanner over the template
characters. First component of the state: `none` outside a replacement
field, `some acc` inside one with `acc` the (reversed) field name read so
far. `%x7b%x7b`/doubled braces are literal braces; the field `transcript`
substitutes; any other field name raises `KeyError`; unmatched braces raise
`ValueError`. Crucially, a template containing *no* replacement field at
all formats to itself — `str.format` does not require its keyword arguments
to be used. -/
def fmtGo (transcript : List Char) :
    Option (List Char) → List Char → Except String (List Char)
  | none, [] => .ok []
  | some _, [] => .error "ValueError: unterminated replacement field"
  | none, '{' :: '{' :: rest => (fmtGo transcript none rest).map (fun l => '{' :: l)
  | none, '}' :: '}' :: rest => (fmtGo transcript none rest).map (fun l => '}' :: l)
  | none, '{' :: rest => fmtGo transcript (some []) rest
  | none, '}' :: _ => .error "ValueError: single closing brace in format string"
  | none, c :: rest => (fmtGo transcript none rest).map (fun l => c :: l)
  | some acc, '}' :: rest =>
    if acc.reverse = "transcript".toList then
      (fmtGo transcript none rest).map (fun l => transcript ++ l)
    else .error "KeyError: unknown replacement field"
  | some acc, c :: rest => fmtGo transcript (some (c :: acc)) rest

/-- Python `template.format(transcript=transcript)`. -/
def pyFormat (template transcript : String) : Except String String :=
  (fmtGo transcript.toList none template.toList).map (fun l => String.mk l)

/-- Does the template contain the literal placeholder `{transcript}`? -/
def hasPlaceholderAux : List Char → Bool
  | [] => false
  | c :: rest =>
    "{transcript}".toList.isPrefixOf (c :: rest) || hasPlaceholderAux rest

def hasPlaceholder (template : String) : Bool :=
  hasPlaceholderAux template.toList

/-- The payload of a `GeminiAPI.generate` call (api.py lines 161-204):
prompt text, optional file reference, and generation parameters. -/
structure GenerateRequest where
  prompt : String
  fileUri : Option String
  temperature : ℚ
  maxOutputTokens : ℕ
  timeout : ℕ
deriving DecidableEq

/-- Model of `Transcriber.merge_transcripts` (transcriber.py lines 183-206) up to the
point of issuing the remote call: builds `combined`, formats the template,
and returns the generation request it would send (`temperature=0.3,
max_output_tokens=100000, timeout=900`). A Python exception from
`str.format` is the `Except.error` case and occurs before any network
call. -/
def merge_transcripts (transcripts : List String) (merge_prompt : String) :
    Except String GenerateRequest :=
  match pyFormat merge_prompt (combineChunks transcripts) with
  | .error e => .error e
  | .ok p => .ok ⟨p, none, 3/10, 100000, 900⟩

/-! ## Checkpoints and the per-chunk pipeline loop

Step 2 of `Transcriber.transcribe` (transcriber.py lines 268-291): for each
chunk, if `transcript_chunk_{num:02d}.md` exists it is loaded and no remote
work happens; otherwise the chunk is uploaded and transcribed remotely and
the result saved to that file. -/

/-- One decimal digit, `0`-`9` (callers only pass `n < 10`). -/
def decDigit (n : ℕ) : Char :=
  if n = 0 then '0' else if n = 1 then '1' else if n = 2 then '2'
  else if n = 3 then '3' else if n = 4 then '4' else if n = 5 then '5'
  else if n = 6 then '6' else if n = 7 then '7' else if n = 8 then '8'
  else '9'

/-- The decimal digits of `n`, most significant first (Python `"%d" % n`). -/
def natDigits (n : ℕ) : List Char :=
  if n < 10 then [decDigit n]
  else natDigits (n / 10) ++ [decDigit (n % 10)]
termination_by n
decreasing_by exact Nat.div_lt_self (by omega) (by omega)

/-- Python `f"{n:02d}"`: the decimal digits of `n`, zero-padded to width
two. -/
def pad2 (n : ℕ) : List Char :=
  if n < 10 then '0' :: natDigits n else natDigits n

/-- The checkpoint artifact name for a chunk:
`f"transcript_chunk_{num:02d}.md"` (transcriber.py line 269). -/
def ckptFile (num : ℕ) : String :=
  String.mk ("transcript_chunk_".toList ++ pad2 num ++ ".md".toList)

/-- The Step 2 loop of `Transcriber.transcribe`. `fs` is the working
directory (name ↦ contents); `remote num` is the transcript the remote
service would produce for chunk `num` (upload → transcribe). Returns the
transcripts in chunk order, the chunk numbers for which remote
upload/transcription calls were made (in order), and the directory after
the loop (checkpoints saved, as the code does when writing the file). -/
def processChunks (remote : ℕ → String) :
    (String → Option String) → List Chunk →
      List String × List ℕ × (String → Option String)
  | fs, [] => ([], [], fs)
  | fs, c :: rest =>
    match fs (ckptFile c.num) with
    | some t =>
      let r := processChunks remote fs rest
      (t :: r.1, r.2.1, r.2.2)
    | none =>
      let t := remote c.num
      let fs' : String → Option String :=
        fun x => if x = ckptFile c.num then some t else fs x
      let r := processChunks remote fs' rest
      (t :: r.1, c.num :: r.2.1, r.2.2)

/-! ## The remote service client (`api.py`)

`GeminiAPI.check_existing_file` (lines 40-58), `upload_file` (lines 60-140),
`_wait_for_file_processing` (lines 142-159) and `generate` (lines 161-215),
modelled by their observable HTTP interactions: each remote response is a
status code plus the response fields the code reads. -/

/-- One entry of the file listing of the service, with the fields the code
reads: `displayName`, `state`, `uri`, `name`. -/
structure RemoteFile where
  displayName : String
  state : String
  uri : String
  name : String
deriving DecidableEq

/-- The remote responses observed during one `upload_file` call: the
listing response (status + files), the upload-initiation response (status +
`X-Goog-Upload-URL` header), the byte-transfer response (status + returned
file uri/name), and the sequence of polling responses (status + `state`). -/
structure RemoteEnv where
  listStatus : ℕ
  files : List RemoteFile
  initStatus : ℕ
  initUploadUrl : Option String
  transferStatus : ℕ
  transferUri : String
  transferName : String
  polls : List (ℕ × String)

/-- Model of `GeminiAPI.check_existing_file` (api.py lines 40-58): on a 200 listing,
scan the files in order and return the uri/name of the first entry whose
display name matches *and* whose state is ACTIVE; on any other status (or
no match) return `(None, None)` — note the non-200 status is silently
swallowed. -/
def checkExistingFile (listStatus : ℕ) (files : List RemoteFile)
    (display_name : String) : Option (String × String) :=
  if listStatus = 200 then
    (files.find? (fun f => f.displayName = display_name &&
      f.state = "ACTIVE")).map (fun f => (f.uri, f.name))
  else none

/-- Model of `GeminiAPI._wait_for_file_processing` (api.py lines 142-159): poll until
ACTIVE (ok), FAILED or a non-200 status (exception). `none` means the
observed poll responses ran out with the loop still polling. -/
def waitForFileProcessing : List (ℕ × String) → Option (Except String Unit)
  | [] => none
  | (status, st) :: rest =>
    if status ≠ 200 then
      some (.error ("Failed to check file status: " ++ toString status))
    else if st = "ACTIVE" then some (.ok ())
    else if st = "FAILED" then some (.error "File processing failed")
    else waitForFileProcessing rest

/-- The upload path of `GeminiAPI.upload_file` (api.py lines 91-140), after
the reuse check has missed: initiate (fatal on non-200, fatal on missing
upload URL), transfer bytes (fatal on non-200), then wait for processing.
The second component records that an upload-initiation request was
issued. -/
def doUpload (env : RemoteEnv) :
    Option (Except String (String × String)) × Bool :=
  if env.initStatus ≠ 200 then
    (some (.error ("Failed to initialize upload: " ++ toString env.initStatus)),
      true)
  else
    match env.initUploadUrl with
    | none => (some (.error "No upload URL returned"), true)
    | some _ =>
      if env.transferStatus ≠ 200 then
        (some (.error ("Failed to upload file: " ++ toString env.transferStatus)),
          true)
      else
        match waitForFileProcessing env.polls with
        | none => (none, true)
        | some (.error e) => (some (.error e), true)
        | some (.ok _) => (some (.ok (env.transferUri, env.transferName)), true)

/-- Model of `GeminiAPI.upload_file` (api.py lines 60-140): if reuse is enabled and
`check_existing_file` returns a truthy uri (Python: `if existing_uri:`),
return it with no upload-initiation call; otherwise perform the two-phase
upload. -/
def upload_file (env : RemoteEnv) (display_name : String)
    (reuse_existing : Bool) :
    Option (Except String (String × String)) × Bool :=
  match (if reuse_existing then
      checkExistingFile env.listStatus env.files display_name else none) with
  | some (uri, nm) =>
    if uri = "" then doUpload env else (some (.ok (uri, nm)), false)
  | none => doUpload env

/-- The response handling of `GeminiAPI.generate` (api.py lines 199-215):
non-200 status is fatal; a 200 response without the expected
`candidates[0].content.parts[0].text` field is a distinct fatal error. -/
def generate (genStatus : ℕ) (candidateText : Option String) :
    Except String String :=
  if genStatus ≠ 200 then
    .error ("Generation failed: " ++ toString genStatus)
  else
    match candidateText with
    | some t => .ok t
    | none => .error "Failed to extract response"

/-! ## Chunk file names, `Path.stem`, and claim C9

`split_audio` names each chunk `chunks_dir / f"chunk_{chunk_num:02d}.wav"`
(transcriber.py line 133) and `upload_file` uses `filepath.stem` as the
remote display name (api.py line 81). -/

/-- The base name of the chunk file, `f"chunk_{num:02d}.wav"`. -/
def chunkFileBase (num : ℕ) : List Char :=
  "chunk_".toList ++ pad2 num ++ ".wav".toList

/-- The chunk file path `chunks_dir / f"chunk_{num:02d}.wav"` (Python
`pathlib` joins with `/`). -/
def chunkFilePath (chunks_dir : List Char) (num : ℕ) : List Char :=
  chunks_dir ++ '/' :: chunkFileBase num

/-- The final path component (text after the last `/`). -/
def lastComponent (path : List Char) : List Char :=
  path.foldl (fun acc c => if c = '/' then [] else acc ++ [c]) []

/-- Strip the last extension (text from the final `.` on) from a file
name. -/
def dropExt (name : List Char) : List Char :=
  if '.' ∈ name.reverse then
    ((name.reverse.dropWhile (fun c => c ≠ '.')).tail).reverse
  else name

/-- Python `pathlib.Path(path).stem`: final component without its last
suffix. -/
def stem (path : List Char) : List Char := dropExt (lastComponent path)

/-- The remote display name `upload_file` derives for chunk `num`:
`chunk_{num:02d}` — a function of the chunk index alone. -/
def chunkDisplayName (num : ℕ) : List Char := "chunk_".toList ++ pad2 num

/-! ## Prompt construction and claim C10

`get_chunk_prompt` (transcriber.py lines 13-34), the module-level defaults
(lines 37-58), and the prompt-construction part of `Transcriber.transcribe`
(lines 238-255). -/

/-- Model of `get_chunk_prompt(speakers)` (transcriber.py lines 13-34): with two or
more speaker names each becomes its own bold label, else the generic
two-speaker placeholder; the result is the chunk transcription template
with the label text interpolated. -/
def get_chunk_prompt (speakers : Option (List String)) : String :=
  let speaker_format :=
    match speakers with
    | some l =>
      if 2 ≤ l.length then
        strJoin ", " (l.map (fun name => "**" ++ name ++ ":**"))
      else
        "**Speaker 1:** and **Speaker 2:** (or use actual names if identifiable)"
    | none =>
      "**Speaker 1:** and **Speaker 2:** (or use actual names if identifiable)"
  "Please transcribe this audio interview/conversation segment.

FORMAT:
- Speaker names in bold: " ++ speaker_format ++ "
- Use proper paragraphing for longer responses

CLEANING INSTRUCTIONS:
1. Remove filler words: \"um\", \"uh\", \"like\", \"you know\", \"sort of\", \"kind of\" (when used as fillers)
2. Remove pure backchanneling: \"right\", \"yeah\", \"uh-huh\", \"mm-hmm\", \"okay\", \"sure\", \"interesting\" when they\u0027re just acknowledgments (not substantive responses)
3. Keep \"right\" or \"yeah\" only when part of making a substantive point
4. Clean up false starts, stutters, and repetitions for readability
5. Preserve all intellectual content and nuance
6. Keep substantive questions and responses only

Provide the complete transcript for this segment."

/-- Source constant `DEFAULT_CHUNK_PROMPT` (transcriber.py line 37). -/
def DEFAULT_CHUNK_PROMPT : String := get_chunk_prompt none

/-- Source constant `DEFAULT_MERGE_PROMPT` (transcriber.py lines 40-58). -/
def DEFAULT_MERGE_PROMPT : String :=
  "Below is a transcript assembled from multiple audio chunks. Please:

1. Clean up any duplicate text at chunk boundaries (there was overlap between chunks)
2. Add section headers (## Header) every 15-20 minutes of conversation
   - Section headers should be 5-6 words capturing that section\u0027s main topic
   - Example: \"## Discussion of Main Research Goals\" or \"## Addressing Common Misconceptions\"
3. Ensure consistent formatting throughout
4. Fix any obvious transcription errors you can identify from context
5. Maintain speaker labels in bold format

Here is the raw transcript to clean up:

---

{transcript}

---

Please output the cleaned, formatted transcript with section headers."

/-- The prompt-construction steps of `Transcriber.transcribe` (transcriber.py
lines 238-255): read the custom-instructions file when it exists (a missing
file is silently ignored, leaving the instructions empty — no exception is
raised, the function is total); default the chunk prompt via
`get_chunk_prompt`; append non-empty instructions under the ADDITIONAL
INSTRUCTIONS heading. -/
def buildChunkPrompt (fs : String → Option String)
    (chunk_prompt : Option String) (instructions_file : Option String)
    (speaker_list : Option (List String)) : String :=
  let custom_instructions :=
    match instructions_file with
    | none => ""
    | some f =>
      match fs f with
      | some txt => txt
      | none => ""
  let cp :=
    match chunk_prompt with
    | none => get_chunk_prompt speaker_list
    | some p => p
  if custom_instructions = "" then cp
  else cp ++ "\n\nADDITIONAL INSTRUCTIONS:\n" ++ custom_instructions

/-! ## Lemmas and claim theorems -/

theorem pymin_eq_min (a b : ℚ) : pymin a b = min a b := (min_def a b).symm

/-! ### Unfolding lemmas for one loop iteration -/

theorem splitAux_zero (cd ov D start : ℚ) (n : ℕ) :
    splitAux cd ov D start n 0 = none := rfl

/-- An iteration in which the emitted chunk reaches the end of the audio:
the chunk `[start, D)` is appended and the loop breaks. -/
theorem splitAux_succ_break (cd ov D start : ℚ) (n fuel : ℕ)
    (hs : start < D) (hbr : D ≤ start + cd) :
    splitAux cd ov D start n (fuel + 1) = some [⟨start, D, n⟩] := by
  rcases le_or_lt (start + cd) D with hle | hlt
  · have hD : start + cd = D := le_antisymm hle hbr
    simp only [splitAux, pymin, if_pos hs, if_pos hle, hD, le_refl, if_true]
  · have hpm : pymin (start + cd) D = D := if_neg (not_le.mpr hlt)
    simp only [splitAux, if_pos hs, hpm, le_refl, if_true]

/-- An iteration that does not reach the end: the chunk
`[start, start + cd)` is appended and the loop continues at
`start + cd - ov`. -/
theorem splitAux_succ_cont (cd ov D start : ℚ) (n fuel : ℕ)
    (hs : start < D) (hcont : start + cd < D) :
    splitAux cd ov D start n (fuel + 1) =
      (splitAux cd ov D (start + cd - ov) (n + 1) fuel).map
        (fun cs => ⟨start, start + cd, n⟩ :: cs) := by
  have hpm : pymin (start + cd) D = start + cd := if_pos hcont.le
  simp only [splitAux, if_pos hs, hpm, if_neg (not_le.mpr hcont)]

/-! ### Structural invariants of the loop -/

/-- If the loop is entered (`start < D`) and returns, the first chunk it
emitted starts at `start` and carries index `n`. -/
theorem splitAux_head {cd ov D start : ℚ} {n fuel : ℕ} {cs : List Chunk}
    (h : splitAux cd ov D start n fuel = some cs) (hs : start < D) :
    ∃ e cs', cs = ⟨start, e, n⟩ :: cs' := by
  cases fuel with
  | zero => simp [splitAux_zero] at h
  | succ fuel =>
    rcases le_or_lt D (start + cd) with hbr | hcont
    · rw [splitAux_succ_break cd ov D start n fuel hs hbr] at h
      exact ⟨D, [], (Option.some_injective _ h).symm⟩
    · rw [splitAux_succ_cont cd ov D start n fuel hs hcont] at h
      rcases Option.map_eq_some'.mp h with ⟨cs', _, rfl⟩
      exact ⟨start + cd, cs', rfl⟩

/-- If the loop is entered and returns, the last chunk it emitted ends
exactly at the total duration `D`. -/
theorem splitAux_last {cd ov D : ℚ} (hov : 0 ≤ ov) :
    ∀ {fuel : ℕ} {start : ℚ} {n : ℕ} {cs : List Chunk},
      splitAux cd ov D start n fuel = some cs → start < D →
      ∃ cl, cs.getLast? = some cl ∧ cl.«end» = D := by
  intro fuel
  induction fuel with
  | zero => intro start n cs h _; simp [splitAux_zero] at h
  | succ fuel ih =>
    intro start n cs h hs
    rcases le_or_lt D (start + cd) with hbr | hcont
    · rw [splitAux_succ_break cd ov D start n fuel hs hbr] at h
      cases Option.some_injective _ h
      exact ⟨⟨start, D, n⟩, rfl, rfl⟩
    · rw [splitAux_succ_cont cd ov D start n fuel hs hcont] at h
      rcases Option.map_eq_some'.mp h with ⟨cs', hrec, rfl⟩
      have hs' : start + cd - ov < D := by linarith
      rcases ih hrec hs' with ⟨cl, hcl, hclD⟩
      rcases splitAux_head hrec hs' with ⟨e, cs'', rfl⟩
      exact ⟨cl, by rw [List.getLast?_cons_cons]; exact hcl, hclD⟩

/-- Every chunk the loop emits has length at most `cd` and nonzero length. -/
theorem splitAux_mem {cd ov D : ℚ} (hov : 0 ≤ ov) (hcd : 0 < cd) :
    ∀ {fuel : ℕ} {start : ℚ} {n : ℕ} {cs : List Chunk},
      splitAux cd ov D start n fuel = some cs → start < D →
      ∀ c ∈ cs, c.«end» - c.start ≤ cd ∧ c.start < c.«end» := by
  intro fuel
  induction fuel with
  | zero => intro start n cs h _; simp [splitAux_zero] at h
  | succ fuel ih =>
    intro start n cs h hs
    rcases le_or_lt D (start + cd) with hbr | hcont
    · rw [splitAux_succ_break cd ov D start n fuel hs hbr] at h
      cases Option.some_injective _ h
      intro c hc
      rcases List.mem_singleton.mp hc with rfl
      exact ⟨by simpa using by linarith, by simpa using hs⟩
    · rw [splitAux_succ_cont cd ov D start n fuel hs hcont] at h
      rcases Option.map_eq_some'.mp h with ⟨cs', hrec, rfl⟩
      have hs' : start + cd - ov < D := by linarith
      intro c hc
      rcases List.mem_cons.mp hc with rfl | hc'
      · exact ⟨by simp, by simpa using by linarith⟩
      · exact ih hrec hs' c hc'

/-- Consecutive chunks emitted by the loop overlap by exactly `ov` seconds:
each chunk starts `ov` before the end of the previous chunk. -/
theorem splitAux_chain {cd ov D : ℚ} (hov : 0 ≤ ov) :
    ∀ {fuel : ℕ} {start : ℚ} {n : ℕ} {cs : List Chunk},
      splitAux cd ov D start n fuel = some cs → start < D →
      List.Chain' (fun a b => b.start = a.«end» - ov) cs := by
  intro fuel
  induction fuel with
  | zero => intro start n cs h _; simp [splitAux_zero] at h
  | succ fuel ih =>
    intro start n cs h hs
    rcases le_or_lt D (start + cd) with hbr | hcont
    · rw [splitAux_succ_break cd ov D start n fuel hs hbr] at h
      cases Option.some_injective _ h
      exact List.chain'_singleton _
    · rw [splitAux_succ_cont cd ov D start n fuel hs hcont] at h
      rcases Option.map_eq_some'.mp h with ⟨cs', hrec, rfl⟩
      have hs' : start + cd - ov < D := by linarith
      refine List.chain'_cons'.mpr ⟨?_, ih hrec hs'⟩
      intro y hy
      rcases splitAux_head hrec hs' with ⟨e, cs'', rfl⟩
      simp only [List.head?_cons, Option.mem_def, Option.some.injEq] at hy
      subst hy
      rfl

/-- Chunk indices are consecutive, starting at the index the loop was
entered with. -/
theorem splitAux_num {cd ov D : ℚ} (hov : 0 ≤ ov) :
    ∀ {fuel : ℕ} {start : ℚ} {n : ℕ} {cs : List Chunk},
      splitAux cd ov D start n fuel = some cs → start < D →
      ∀ i (hi : i < cs.length), (cs.get ⟨i, hi⟩).num = n + i := by
  intro fuel
  induction fuel with
  | zero => intro start n cs h _; simp [splitAux_zero] at h
  | succ fuel ih =>
    intro start n cs h hs
    rcases le_or_lt D (start + cd) with hbr | hcont
    · rw [splitAux_succ_break cd ov D start n fuel hs hbr] at h
      cases Option.some_injective _ h
      intro i hi
      simp only [List.length_singleton] at hi
      obtain rfl : i = 0 := Nat.lt_one_iff.mp hi
      rfl
    · rw [splitAux_succ_cont cd ov D start n fuel hs hcont] at h
      rcases Option.map_eq_some'.mp h with ⟨cs', hrec, rfl⟩
      have hs' : start + cd - ov < D := by linarith
      intro i hi
      cases i with
      | zero => rfl
      | succ i =>
        have := ih hrec hs' i (by simpa using Nat.lt_of_succ_lt_succ hi)
        simpa [Nat.add_assoc, Nat.add_comm 1 i] using this

/-- Every chunk except the last has length exactly `cd`. -/
theorem splitAux_penult {cd ov D : ℚ} (hov : 0 ≤ ov) :
    ∀ {fuel : ℕ} {start : ℚ} {n : ℕ} {cs : List Chunk},
      splitAux cd ov D start n fuel = some cs → start < D →
      ∀ i (hi : i + 1 < cs.length),
        (cs.get ⟨i, Nat.lt_of_succ_lt hi⟩).«end» -
          (cs.get ⟨i, Nat.lt_of_succ_lt hi⟩).start = cd := by
  intro fuel
  induction fuel with
  | zero => intro start n cs h _; simp [splitAux_zero] at h
  | succ fuel ih =>
    intro start n cs h hs
    rcases le_or_lt D (start + cd) with hbr | hcont
    · rw [splitAux_succ_break cd ov D start n fuel hs hbr] at h
      cases Option.some_injective _ h
      intro i hi
      simp only [List.length_singleton] at hi
      omega
    · rw [splitAux_succ_cont cd ov D start n fuel hs hcont] at h
      rcases Option.map_eq_some'.mp h with ⟨cs', hrec, rfl⟩
      have hs' : start + cd - ov < D := by linarith
      intro i hi
      cases i with
      | zero => simp
      | succ i => exact ih hrec hs' i (by simpa using Nat.lt_of_succ_lt_succ hi)

/-- Termination of the splitting loop for accepted configurations: enough
fuel makes the loop return. The bound `D - start ≤ cd + f * (cd - ov)`
shrinks by `cd - ov > 0` at each continuing iteration. -/
theorem splitAux_total {cd ov D : ℚ} (hov : 0 ≤ ov) :
    ∀ (f : ℕ) (start : ℚ) (n : ℕ), start < D →
      D - start ≤ cd + f * (cd - ov) →
      ∃ cs, splitAux cd ov D start n (f + 1) = some cs := by
  intro f
  induction f with
  | zero =>
    intro start n hs hle
    refine ⟨[⟨start, D, n⟩], splitAux_succ_break cd ov D start n 0 hs ?_⟩
    push_cast at hle
    linarith
  | succ f ih =>
    intro start n hs hle
    rcases le_or_lt D (start + cd) with hbr | hcont
    · exact ⟨[⟨start, D, n⟩], splitAux_succ_break cd ov D start n (f + 1) hs hbr⟩
    · have hs' : start + cd - ov < D := by linarith
      have hle' : D - (start + cd - ov) ≤ cd + f * (cd - ov) := by
        push_cast at hle ⊢
        ring_nf at hle ⊢
        linarith
      rcases ih (start + cd - ov) (n + 1) hs' hle' with ⟨cs', hcs'⟩
      exact ⟨⟨start, start + cd, n⟩ :: cs',
        by rw [splitAux_succ_cont cd ov D start n (f + 1) hs hcont, hcs']; rfl⟩

/-- A chain of chunks with no gaps (each starts no later than its
predecessor ends) covers every instant from the start of the first chunk
up to the end of the last chunk. -/
theorem chain_coverage :
    ∀ (cs : List Chunk), List.Chain' (fun a b => b.start ≤ a.«end») cs →
      ∀ t : ℚ, (∃ c₀, cs.head? = some c₀ ∧ c₀.start ≤ t) →
        (∃ cl, cs.getLast? = some cl ∧ t < cl.«end») →
        ∃ c ∈ cs, c.start ≤ t ∧ t < c.«end»
  | [], _, t, ⟨c₀, h₀, _⟩, _ => by simp at h₀
  | [c], _, t, ⟨c₀, h₀, hc₀⟩, ⟨cl, hl, hcl⟩ => by
    simp only [List.head?_cons, Option.some.injEq] at h₀
    simp only [List.getLast?_singleton, Option.some.injEq] at hl
    subst h₀; subst hl
    exact ⟨c, List.mem_singleton_self c, hc₀, hcl⟩
  | a :: b :: rest, hchain, t, ⟨c₀, h₀, hc₀⟩, ⟨cl, hl, hcl⟩ => by
    simp only [List.head?_cons, Option.some.injEq] at h₀
    subst h₀
    rcases lt_or_le t a.«end» with hlt | hge
    · exact ⟨a, List.mem_cons_self a _, hc₀, hlt⟩
    · have hba : b.start ≤ a.«end» := (List.chain'_cons.mp hchain).1
      have := chain_coverage (b :: rest) (List.chain'_cons.mp hchain).2 t
        ⟨b, rfl, le_trans hba hge⟩
        ⟨cl, by rwa [List.getLast?_cons_cons] at hl, hcl⟩
      rcases this with ⟨c, hc, hcs, hce⟩
      exact ⟨c, List.mem_cons_of_mem a hc, hcs, hce⟩

/-! ## Claims C1-C3: configuration validation and the chunk plan -/

/-- C1 (code_bug evidence). The spec requires `overlap >= chunk_duration`
to raise a ConfigurationError before any file is touched. The code has no
such check: `Transcriber.__init__` accepts `chunk_duration = 1200,
overlap = 1200` unconditionally, and for a 2500-second audio file the
splitting loop then never terminates — after emitting chunk `[0, 1200)` it
sets `start = 1200 - 1200 = 0` and repeats forever (the embedding returns
`none`, i.e. exhausts every fuel, for every starting chunk index). -/
theorem overlap_eq_chunk_duration_loops_forever :
    Transcriber.init 1200 1200 "audio_chunks".toList =
      ⟨1200, 1200, "audio_chunks".toList⟩ ∧
    ∀ (fuel chunk_num : ℕ), splitAux 1200 1200 2500 0 chunk_num fuel = none := by
  refine ⟨rfl, ?_⟩
  intro fuel
  induction fuel with
  | zero => intro n; rfl
  | succ f ih =>
    intro n
    have hs : (0 : ℚ) < 2500 := by norm_num
    have hcont : (0 : ℚ) + 1200 < 2500 := by norm_num
    rw [splitAux_succ_cont 1200 1200 2500 0 n f hs hcont]
    have h0 : (0 : ℚ) + 1200 - 1200 = 0 := by norm_num
    rw [h0, ih]
    rfl

unseal Rat.add Rat.sub in
/-- C2. For every `total_duration > 0` and `0 < overlap < chunk_duration`:
whenever the splitting loop returns a plan, the plan starts at 0, ends
exactly at the total duration, has chunks of length at most `chunk_duration`,
has consecutive chunks overlapping by exactly `overlap` seconds, and covers
`[0, total_duration)` pointwise with no gaps; moreover some fuel suffices
(the loop terminates), and for `total_duration = 2500`,
`chunk_duration = 1200`, `overlap = 10` the plan is exactly ⟨0,1200,1⟩,
⟨1190,2390,2⟩, ⟨2380,2500,3⟩. -/
theorem split_plan_correct :
    (∀ (cd ov D : ℚ) (fuel : ℕ) (cs : List Chunk),
        0 < D → 0 < ov → ov < cd → splitChunks cd ov D fuel = some cs →
        (∃ c₀, cs.head? = some c₀ ∧ c₀.start = 0) ∧
        (∃ cl, cs.getLast? = some cl ∧ cl.«end» = D) ∧
        (∀ c ∈ cs, c.«end» - c.start ≤ cd) ∧
        List.Chain' (fun a b => b.start = a.«end» - ov) cs ∧
        (∀ t : ℚ, 0 ≤ t → t < D → ∃ c ∈ cs, c.start ≤ t ∧ t < c.«end»)) ∧
    (∀ (cd ov D : ℚ), 0 < D → 0 < ov → ov < cd →
        ∃ fuel cs, splitChunks cd ov D fuel = some cs) ∧
    splitChunks 1200 10 2500 5 =
      some [⟨0, 1200, 1⟩, ⟨1190, 2390, 2⟩, ⟨2380, 2500, 3⟩] := by
  refine ⟨?_, ?_, ?_⟩
  · intro cd ov D fuel cs hD hov hcd h
    have hov' : (0 : ℚ) ≤ ov := hov.le
    have hcd0 : (0 : ℚ) < cd := lt_trans hov hcd
    have hhead := splitAux_head h hD
    rcases hhead with ⟨e, cs', rfl⟩
    have hlast := splitAux_last hov' h hD
    have hmem := splitAux_mem hov' hcd0 h hD
    have hchain := splitAux_chain hov' h hD
    refine ⟨⟨⟨0, e, 1⟩, rfl, rfl⟩, hlast, fun c hc => (hmem c hc).1, hchain, ?_⟩
    intro t ht htD
    have hchain' : List.Chain' (fun a b => b.start ≤ a.«end»)
        (⟨0, e, 1⟩ :: cs') := by
      refine List.Chain'.imp ?_ hchain
      intro a b hab
      rw [hab]
      linarith
    exact chain_coverage _ hchain' t ⟨⟨0, e, 1⟩, rfl, ht⟩
      (by rcases hlast with ⟨cl, hcl, hclD⟩; exact ⟨cl, hcl, hclD ▸ htD⟩)
  · intro cd ov D hD hov hcd
    have hstep : (0 : ℚ) < cd - ov := by linarith
    rcases exists_nat_ge ((D - cd) / (cd - ov)) with ⟨f, hf⟩
    have hle : D - 0 ≤ cd + f * (cd - ov) := by
      have := (div_le_iff₀ hstep).mp hf
      linarith
    rcases splitAux_total hov.le f 0 1 hD hle with ⟨cs, hcs⟩
    exact ⟨f + 1, cs, hcs⟩
  · decide

/-- C2 witness: the general part of `split_plan_correct` instantiated on
the concrete example, every hypothesis discharged. -/
theorem split_plan_correct_witness :
    ((⟨1190, 2390, 2⟩ : Chunk).«end» - (⟨1190, 2390, 2⟩ : Chunk).start ≤ 1200) ∧
    List.Chain' (fun a b => b.start = a.«end» - 10)
      [(⟨0, 1200, 1⟩ : Chunk), ⟨1190, 2390, 2⟩, ⟨2380, 2500, 3⟩] := by
  have h := split_plan_correct.1 1200 10 2500 5
    [⟨0, 1200, 1⟩, ⟨1190, 2390, 2⟩, ⟨2380, 2500, 3⟩]
    (by norm_num) (by norm_num) (by norm_num) split_plan_correct.2.2
  exact ⟨h.2.2.1 _ (by simp), h.2.2.2.1⟩

/-- C3. For every plan the loop returns (with `0 ≤ overlap <
chunk_duration`, `total_duration > 0`): chunk indices are 1-based and
contiguous (`num` at position `i` is `i + 1`), every chunk but the last has
length exactly `chunk_duration`, and the last chunk ends at
`total_duration`. -/
theorem split_plan_indices :
    ∀ (cd ov D : ℚ) (fuel : ℕ) (cs : List Chunk),
      0 < D → 0 ≤ ov → ov < cd → splitChunks cd ov D fuel = some cs →
      (∀ i (hi : i < cs.length), (cs.get ⟨i, hi⟩).num = i + 1) ∧
      (∀ i (hi : i + 1 < cs.length),
        (cs.get ⟨i, Nat.lt_of_succ_lt hi⟩).«end» -
          (cs.get ⟨i, Nat.lt_of_succ_lt hi⟩).start = cd) ∧
      (∃ cl, cs.getLast? = some cl ∧ cl.«end» = D) := by
  intro cd ov D fuel cs hD hov hcd h
  refine ⟨?_, splitAux_penult hov h hD, splitAux_last hov h hD⟩
  intro i hi
  rw [splitAux_num hov h hD i hi]
  exact Nat.add_comm 1 i

/-- C3 witness: instantiated on the concrete plan for
`chunk_duration = 1200`, `overlap = 10`, `total_duration = 2500`. -/
theorem split_plan_indices_witness :
    (([⟨0, 1200, 1⟩, ⟨1190, 2390, 2⟩, ⟨2380, 2500, 3⟩] : List Chunk).get
        ⟨1, by decide⟩).num = 1 + 1 ∧
    (([⟨0, 1200, 1⟩, ⟨1190, 2390, 2⟩, ⟨2380, 2500, 3⟩] : List Chunk).get
        ⟨0, by decide⟩).«end» -
      (([⟨0, 1200, 1⟩, ⟨1190, 2390, 2⟩, ⟨2380, 2500, 3⟩] : List Chunk).get
        ⟨0, by decide⟩).start = 1200 := by
  have h := split_plan_indices 1200 10 2500 5
    [⟨0, 1200, 1⟩, ⟨1190, 2390, 2⟩, ⟨2380, 2500, 3⟩]
    (by norm_num) (by norm_num) (by norm_num) split_plan_correct.2.2
  exact ⟨h.1 1 (by decide), h.2.1 0 (by decide)⟩

/-! ### Lemmas about the format scanner and the combined input -/

/-- Scanning an ordinary character (not a brace) copies it through. -/
theorem fmtGo_other (tr : List Char) (c : Char) (rest : List Char)
    (h1 : c ≠ '{') (h2 : c ≠ '}') :
    fmtGo tr none (c :: rest) = (fmtGo tr none rest).map (fun l => c :: l) := by
  rcases rest with _ | ⟨c2, rest2⟩ <;>
    · rw [fmtGo.eq_def]
      simp [h1, h2]

/-- A template with no brace characters formats to itself, whatever the
value of the keyword argument: `str.format` does not require its arguments to be
used. -/
theorem fmtGo_no_brace (tr : List Char) :
    ∀ l : List Char, (∀ c ∈ l, c ≠ '{' ∧ c ≠ '}') → fmtGo tr none l = .ok l := by
  intro l
  induction l with
  | nil => intro _; rfl
  | cons c rest ih =>
    intro h
    have hc := h c (List.mem_cons_self c _)
    rw [fmtGo_other tr c rest hc.1 hc.2,
      ih (fun x hx => h x (List.mem_cons_of_mem c hx))]
    rfl

/-- The combined merge input of the code, built from `enumerate`, agrees with the
index-driven recursion `mergeInputSpec` at every starting index. -/
theorem combineChunks_enumFrom :
    ∀ (ts : List String) (n : ℕ),
      strJoin "\n\n---\n\n" ((List.enumFrom n ts).map
        (fun p => "[Chunk " ++ toString (p.1 + 1) ++ "]\n\n" ++ p.2)) =
        mergeInputSpec (n + 1) ts
  | [], _ => rfl
  | [_], _ => rfl
  | t1 :: t2 :: rest, n => by
    have ih := combineChunks_enumFrom (t2 :: rest) (n + 1)
    simp only [List.enumFrom, List.map] at ih ⊢
    rw [strJoin, mergeInputSpec, ih] <;> simp

/-! ## Claims C8 and C4: the merge input and the merge template -/

/-- C8. For every non-empty list of chunk transcripts, the combined
merge input built by `merge_transcripts` is exactly the concatenation, in
index order, of the blocks `[Chunk i]` followed by the i-th transcript,
with consecutive blocks separated by the horizontal rule `\n\n---\n\n`,
indices starting at 1 (`mergeInputSpec` states this shape verbatim). -/
theorem merge_input_matches_spec :
    ∀ ts : List String, ts ≠ [] → combineChunks ts = mergeInputSpec 1 ts := by
  intro ts _
  have h := combineChunks_enumFrom ts 0
  simpa [combineChunks, List.enum] using h

/-- C8 witness: two concrete transcripts. -/
theorem merge_input_matches_spec_witness :
    combineChunks ["alpha", "beta"] = mergeInputSpec 1 ["alpha", "beta"] :=
  merge_input_matches_spec ["alpha", "beta"] (by simp)

/-- C4 counterexample. A merge template that does not contain the
`{transcript}` placeholder (it has no replacement field at all) is *not*
rejected: `merge_transcripts` raises no validation error and issues the
generation request with the template text unchanged — the claim that the
merge stage "fails fast with a validation error" is false on this input. -/
theorem merge_template_validation_counterexample :
    hasPlaceholder "Clean up the raw transcript below." = false ∧
    merge_transcripts ["hello"] "Clean up the raw transcript below." =
      .ok ⟨"Clean up the raw transcript below.", none, 3/10, 100000, 900⟩ := by
  exact ⟨rfl, rfl⟩

/-- C4 as amended. The merge stage performs no placeholder validation:
for every template without brace characters (hence without the
`{transcript}` placeholder) and every transcript list, `merge_transcripts`
succeeds and sends the template text verbatim as the prompt — the combined
transcript is silently dropped rather than any validation error being
raised before the network call. -/
theorem merge_template_no_validation :
    ∀ (tmpl : String) (ts : List String),
      (∀ c ∈ tmpl.toList, c ≠ '{' ∧ c ≠ '}') →
      merge_transcripts ts tmpl = .ok ⟨tmpl, none, 3/10, 100000, 900⟩ := by
  intro tmpl ts h
  unfold merge_transcripts pyFormat
  rw [fmtGo_no_brace (combineChunks ts).toList tmpl.toList h]
  rfl

/-- C4 witness: a concrete brace-free template is passed through. -/
theorem merge_template_no_validation_witness :
    merge_transcripts ["hello"] "Merge the chunks now." =
      .ok ⟨"Merge the chunks now.", none, 3/10, 100000, 900⟩ :=
  merge_template_no_validation "Merge the chunks now." ["hello"] (by decide)

/-- Every chunk number in the remote-call trace belongs to some chunk of
the processed list. -/
theorem processChunks_calls_sub (remote : ℕ → String) :
    ∀ (chunks : List Chunk) (fs : String → Option String) (n : ℕ),
      n ∈ (processChunks remote fs chunks).2.1 → ∃ c ∈ chunks, c.num = n := by
  intro chunks
  induction chunks with
  | nil => intro fs n h; simp [processChunks] at h
  | cons d rest ih =>
    intro fs n h
    rcases hdt : fs (ckptFile d.num) with _ | t <;>
      simp only [processChunks, hdt] at h
    · rcases List.mem_cons.mp h with rfl | h'
      · exact ⟨d, List.mem_cons_self d _, rfl⟩
      · rcases ih _ n h' with ⟨c, hc, rfl⟩
        exact ⟨c, List.mem_cons_of_mem d hc, rfl⟩
    · rcases ih _ n h with ⟨c, hc, rfl⟩
      exact ⟨c, List.mem_cons_of_mem d hc, rfl⟩

/-- A chunk whose checkpoint already exists is never remotely processed
(chunk numbers assumed pairwise distinct, as `split_audio` produces them). -/
theorem processChunks_skips_cached (remote : ℕ → String) :
    ∀ (chunks : List Chunk) (fs : String → Option String) (c : Chunk),
      chunks.Pairwise (fun a b => a.num ≠ b.num) →
      c ∈ chunks → (fs (ckptFile c.num)).isSome →
      c.num ∉ (processChunks remote fs chunks).2.1 := by
  intro chunks
  induction chunks with
  | nil => intro fs c _ hc _; simp at hc
  | cons d rest ih =>
    intro fs c hpw hc hsome
    have hpw' := List.pairwise_cons.mp hpw
    rcases hdt : fs (ckptFile d.num) with _ | t <;>
      simp only [processChunks, hdt]
    · -- d has no checkpoint: it is remotely processed, c ≠ d
      rcases List.mem_cons.mp hc with rfl | hc'
      · rw [hdt] at hsome; simp at hsome
      · intro hmem
        rcases List.mem_cons.mp hmem with heq | hmem'
        · exact hpw'.1 c hc' heq.symm
        · have hsome' : ((fun x => if x = ckptFile d.num then
              some (remote d.num) else fs x) (ckptFile c.num)).isSome := by
            by_cases hx : ckptFile c.num = ckptFile d.num <;> simp [hx, hsome]
          exact ih _ c hpw'.2 hc' hsome' hmem'
    · -- d is cached: trace comes from the tail with fs unchanged
      rcases List.mem_cons.mp hc with rfl | hc'
      · intro hmem
        rcases processChunks_calls_sub remote rest fs c.num hmem with ⟨c', hc', he⟩
        exact hpw'.1 c' hc' he.symm
      · exact ih _ c hpw'.2 hc' hsome

/-- If the checkpoint of every chunk exists, the loop makes no remote calls,
returns exactly the loaded checkpoint texts, and leaves the directory
untouched. -/
theorem processChunks_all_cached (remote : ℕ → String) :
    ∀ (chunks : List Chunk) (fs : String → Option String),
      (∀ c ∈ chunks, (fs (ckptFile c.num)).isSome) →
      processChunks remote fs chunks =
        (chunks.map (fun c => (fs (ckptFile c.num)).getD ""), [], fs) := by
  intro chunks
  induction chunks with
  | nil => intro fs _; rfl
  | cons d rest ih =>
    intro fs h
    obtain ⟨t, ht⟩ := Option.isSome_iff_exists.mp (h d (List.mem_cons_self d _))
    simp only [processChunks, ht, List.map_cons]
    rw [ih fs (fun c hc => h c (List.mem_cons_of_mem d hc))]
    simp [ht]

/-- If checkpoints exist for every chunk with number at most `k`, every
remote call made is for a chunk with number greater than `k`. -/
theorem processChunks_resumes (remote : ℕ → String) :
    ∀ (chunks : List Chunk) (fs : String → Option String) (k : ℕ),
      (∀ c ∈ chunks, c.num ≤ k → (fs (ckptFile c.num)).isSome) →
      ∀ n ∈ (processChunks remote fs chunks).2.1, k < n := by
  intro chunks
  induction chunks with
  | nil => intro fs k _ n h; simp [processChunks] at h
  | cons d rest ih =>
    intro fs k h n hn
    rcases hdt : fs (ckptFile d.num) with _ | t <;>
      simp only [processChunks, hdt] at hn
    · rcases List.mem_cons.mp hn with rfl | hn'
      · by_contra hk
        have := h d (List.mem_cons_self d _) (by omega)
        rw [hdt] at this; simp at this
      · refine ih _ k ?_ n hn'
        intro c hc hck
        have := h c (List.mem_cons_of_mem d hc) hck
        by_cases hx : ckptFile c.num = ckptFile d.num <;> simp [hx, this]
    · exact ih _ k (fun c hc hck => h c (List.mem_cons_of_mem d hc) hck) n hn

/-! ## Claim C5: idempotence and resumability -/

/-- C5. (i) A chunk whose checkpoint artifact exists is loaded and
triggers zero remote upload/transcription calls; (ii) if all checkpoints
exist the loop performs zero remote calls and builds the merge input from
the loaded checkpoint texts; (iii) if checkpoints exist for all chunks
numbered ≤ k, only chunks numbered > k are remotely transcribed. -/
theorem checkpoint_resume_correct :
    (∀ (remote : ℕ → String) (chunks : List Chunk)
        (fs : String → Option String) (c : Chunk),
        chunks.Pairwise (fun a b => a.num ≠ b.num) →
        c ∈ chunks → (fs (ckptFile c.num)).isSome →
        c.num ∉ (processChunks remote fs chunks).2.1) ∧
    (∀ (remote : ℕ → String) (chunks : List Chunk)
        (fs : String → Option String),
        (∀ c ∈ chunks, (fs (ckptFile c.num)).isSome) →
        processChunks remote fs chunks =
          (chunks.map (fun c => (fs (ckptFile c.num)).getD ""), [], fs)) ∧
    (∀ (remote : ℕ → String) (chunks : List Chunk)
        (fs : String → Option String) (k : ℕ),
        (∀ c ∈ chunks, c.num ≤ k → (fs (ckptFile c.num)).isSome) →
        ∀ n ∈ (processChunks remote fs chunks).2.1, k < n) :=
  ⟨fun remote chunks fs c => processChunks_skips_cached remote chunks fs c,
   fun remote chunks fs => processChunks_all_cached remote chunks fs,
   fun remote chunks fs k => processChunks_resumes remote chunks fs k⟩

/-- C5 witness: one chunk, its checkpoint present — no remote call,
the checkpoint text is returned, the directory is unchanged. -/
theorem checkpoint_resume_correct_witness :
    processChunks (fun _ => "fresh")
        (fun x => if x = ckptFile 1 then some "cached" else none)
        [⟨0, 1200, 1⟩] =
      (([⟨0, 1200, 1⟩] : List Chunk).map
        (fun c => ((fun x => if x = ckptFile 1 then some "cached" else none)
          (ckptFile c.num)).getD ""),
       [], fun x => if x = ckptFile 1 then some "cached" else none) :=
  checkpoint_resume_correct.2.1 (fun _ => "fresh")
    [⟨0, 1200, 1⟩] (fun x => if x = ckptFile 1 then some "cached" else none)
    (by intro c hc; simp only [List.mem_singleton] at hc; subst hc; simp)

/-- Reuse hit on the first ACTIVE listing entry with the requested display
name: `upload_file` returns its handle and issues no upload-initiation
call. -/
theorem upload_file_reuse_first_match (env : RemoteEnv) (dn : String)
    (h200 : env.listStatus = 200) (hWF : ∀ f ∈ env.files, f.uri ≠ "")
    (l₁ : List RemoteFile) (f₀ : RemoteFile) (l₂ : List RemoteFile)
    (hfiles : env.files = l₁ ++ f₀ :: l₂)
    (hdn : f₀.displayName = dn) (hact : f₀.state = "ACTIVE")
    (hfirst : ∀ f ∈ l₁, ¬(f.displayName = dn ∧ f.state = "ACTIVE")) :
    upload_file env dn true = (some (.ok (f₀.uri, f₀.name)), false) := by
  have hfind : env.files.find?
      (fun f => f.displayName = dn && f.state = "ACTIVE") = some f₀ := by
    rw [hfiles, List.find?_append]
    have h1 : l₁.find? (fun f => f.displayName = dn && f.state = "ACTIVE") =
        none := by
      rw [List.find?_eq_none]
      intro f hf
      simp only [Bool.and_eq_true, decide_eq_true_eq]
      intro hcontra
      exact hfirst f hf hcontra
    rw [h1]
    simp [List.find?_cons, hdn, hact]
  have hcheck : checkExistingFile env.listStatus env.files dn =
      some (f₀.uri, f₀.name) := by
    rw [checkExistingFile, if_pos h200, hfind]
    rfl
  have huri : f₀.uri ≠ "" := hWF f₀ (by rw [hfiles]; simp)
  rw [upload_file]
  simp only [if_true, hcheck]
  rw [if_neg huri]

/-! ## Claims C6 and C7: upload reuse and HTTP error handling -/

/-- C6. With a 200 listing of well-formed entries (non-empty uris): if
some listed file has the requested display name and state ACTIVE, then
`upload_file` with reuse enabled returns an existing handle — specifically
the *first* matching entry in listing order — with zero upload-initiation
calls; and the existence check matches only ACTIVE entries (if every
name-matching entry is non-ACTIVE, the check reports no hit). -/
theorem upload_reuse_correct :
    ∀ (env : RemoteEnv) (display_name : String),
      env.listStatus = 200 → (∀ f ∈ env.files, f.uri ≠ "") →
      ((∃ f ∈ env.files, f.displayName = display_name ∧ f.state = "ACTIVE") →
        ∃ f₀ ∈ env.files, f₀.displayName = display_name ∧
          f₀.state = "ACTIVE" ∧
          upload_file env display_name true =
            (some (.ok (f₀.uri, f₀.name)), false)) ∧
      ((∀ f ∈ env.files, f.displayName = display_name → f.state ≠ "ACTIVE") →
        checkExistingFile env.listStatus env.files display_name = none) ∧
      (∀ (l₁ : List RemoteFile) (f₀ : RemoteFile) (l₂ : List RemoteFile),
        env.files = l₁ ++ f₀ :: l₂ →
        f₀.displayName = display_name → f₀.state = "ACTIVE" →
        (∀ f ∈ l₁, ¬(f.displayName = display_name ∧ f.state = "ACTIVE")) →
        upload_file env display_name true =
          (some (.ok (f₀.uri, f₀.name)), false)) := by
  intro env dn h200 hWF
  refine ⟨?_, ?_, ?_⟩
  · intro hex
    have hsome : (env.files.find?
        (fun f => f.displayName = dn && f.state = "ACTIVE")).isSome := by
      rw [List.find?_isSome]
      rcases hex with ⟨f, hf, h1, h2⟩
      exact ⟨f, hf, by simp [h1, h2]⟩
    obtain ⟨f₀, hf₀⟩ := Option.isSome_iff_exists.mp hsome
    have hmem := List.mem_of_find?_eq_some hf₀
    have hp := List.find?_some hf₀
    simp only [Bool.and_eq_true, decide_eq_true_eq] at hp
    refine ⟨f₀, hmem, hp.1, hp.2, ?_⟩
    have hcheck : checkExistingFile env.listStatus env.files dn =
        some (f₀.uri, f₀.name) := by
      rw [checkExistingFile, if_pos h200, hf₀]; rfl
    rw [upload_file]
    simp only [if_true, hcheck]
    rw [if_neg (hWF f₀ hmem)]
  · intro hnone
    rw [checkExistingFile, if_pos h200, List.find?_eq_none.mpr]
    · rfl
    · intro f hf
      simp only [Bool.and_eq_true, decide_eq_true_eq]
      intro hcontra
      exact hnone f hf hcontra.1 hcontra.2
  · intro l₁ f₀ l₂ hfiles hdn hact hfirst
    exact upload_file_reuse_first_match env dn h200 hWF l₁ f₀ l₂ hfiles hdn
      hact hfirst

/-- C6 witness: a listing holding one PROCESSING and one ACTIVE entry
named `chunk_01`; reuse returns the handle of the ACTIVE (second) entry with no
upload initiation. -/
theorem upload_reuse_correct_witness :
    upload_file
      ⟨200, [⟨"chunk_01", "PROCESSING", "uriP", "files/p"⟩,
             ⟨"chunk_01", "ACTIVE", "uriA", "files/a"⟩],
       200, some "u", 200, "uriNew", "files/new", [(200, "ACTIVE")]⟩
      "chunk_01" true =
    (some (.ok ("uriA", "files/a")), false) :=
  (upload_reuse_correct
    ⟨200, [⟨"chunk_01", "PROCESSING", "uriP", "files/p"⟩,
           ⟨"chunk_01", "ACTIVE", "uriA", "files/a"⟩],
     200, some "u", 200, "uriNew", "files/new", [(200, "ACTIVE")]⟩
    "chunk_01" rfl (by intro f hf; fin_cases hf <;> simp)).2.2
    [⟨"chunk_01", "PROCESSING", "uriP", "files/p"⟩]
    ⟨"chunk_01", "ACTIVE", "uriA", "files/a"⟩ [] rfl rfl rfl
    (by intro f hf; fin_cases hf; simp)

/-- C7 counterexample. A non-success HTTP status is *not* always fatal:
with the listing request answering 500 (while an ACTIVE entry with the
requested name exists on the service), `upload_file` with reuse enabled
swallows the failure, treats it as "no existing file", initiates a fresh
upload and completes successfully — no error aborts the run. -/
theorem http_error_swallowed_counterexample :
    (ite ((500 : ℕ) = 200) True False = False) ∧
    upload_file
      ⟨500, [⟨"chunk_01", "ACTIVE", "uriA", "files/a"⟩],
       200, some "u", 200, "uriNew", "files/new", [(200, "ACTIVE")]⟩
      "chunk_01" true =
    (some (.ok ("uriNew", "files/new")), true) := by
  exact ⟨by simp, rfl⟩

/-- C7 as amended. Non-success HTTP statuses at upload initiation, byte
transfer, readiness polling and generation are each fatal errors carrying
the status; but a non-success status on the *file listing* during the reuse
check is silently swallowed: `check_existing_file` reports "not found" and
`upload_file` falls back to a fresh upload instead of aborting. -/
theorem http_error_handling :
    (∀ env : RemoteEnv, env.initStatus ≠ 200 →
      doUpload env =
        (some (.error ("Failed to initialize upload: " ++
          toString env.initStatus)), true)) ∧
    (∀ env : RemoteEnv, env.initStatus = 200 → env.transferStatus ≠ 200 →
      ∀ u, env.initUploadUrl = some u →
      doUpload env =
        (some (.error ("Failed to upload file: " ++
          toString env.transferStatus)), true)) ∧
    (∀ (status : ℕ) (st : String) (rest : List (ℕ × String)), status ≠ 200 →
      waitForFileProcessing ((status, st) :: rest) =
        some (.error ("Failed to check file status: " ++ toString status))) ∧
    (∀ (genStatus : ℕ) (candidateText : Option String), genStatus ≠ 200 →
      generate genStatus candidateText =
        .error ("Generation failed: " ++ toString genStatus)) ∧
    (∀ (env : RemoteEnv) (dn : String), env.listStatus ≠ 200 →
      checkExistingFile env.listStatus env.files dn = none ∧
      upload_file env dn true = doUpload env) := by
  refine ⟨?_, ?_, ?_, ?_, ?_⟩
  · intro env h
    rw [doUpload, if_pos h]
  · intro env h200 htr u hu
    rw [doUpload, if_neg (by simp [h200]), hu]
    simp only []
    rw [if_pos htr]
  · intro status st rest h
    rw [waitForFileProcessing, if_pos h]
  · intro genStatus candidateText h
    unfold generate
    rw [if_pos h]
  · intro env dn h
    have hcheck : checkExistingFile env.listStatus env.files dn = none := by
      rw [checkExistingFile, if_neg h]
    exact ⟨hcheck, by rw [upload_file]; simp only [if_true, hcheck]⟩

/-- C7 amended-claim witness: a concrete 500 on upload initiation is a
fatal error, and a concrete 500 while polling is a fatal error. -/
theorem http_error_handling_witness :
    doUpload ⟨200, [], 500, some "u", 200, "uriNew", "files/new", []⟩ =
      (some (.error ("Failed to initialize upload: " ++ toString (500 : ℕ))),
        true) ∧
    waitForFileProcessing [((500 : ℕ), "PROCESSING")] =
      some (.error ("Failed to check file status: " ++ toString (500 : ℕ))) :=
  ⟨http_error_handling.1
      ⟨200, [], 500, some "u", 200, "uriNew", "files/new", []⟩ (by decide),
   http_error_handling.2.2.1 500 "PROCESSING" [] (by decide)⟩

theorem foldl_no_slash :
    ∀ (ys acc : List Char), '/' ∉ ys →
      List.foldl (fun acc c => if c = '/' then [] else acc ++ [c]) acc ys =
        acc ++ ys := by
  intro ys
  induction ys with
  | nil => intro acc _; simp
  | cons y ys ih =>
    intro acc h
    have hy : y ≠ '/' := fun hcontra => h (hcontra ▸ List.mem_cons_self y ys)
    simp only [List.foldl_cons, if_neg hy]
    rw [ih (acc ++ [y]) (fun hc => h (List.mem_cons_of_mem y hc))]
    simp

theorem lastComponent_append (xs ys : List Char) :
    lastComponent (xs ++ '/' :: ys) = lastComponent ys := by
  unfold lastComponent
  rw [List.foldl_append]
  simp

theorem lastComponent_no_slash (ys : List Char) (h : '/' ∉ ys) :
    lastComponent ys = ys := by
  unfold lastComponent
  rw [foldl_no_slash ys [] h]
  simp

theorem dropWhile_append_all (p : Char → Bool) :
    ∀ (xs l : List Char), (∀ x ∈ xs, p x) →
      List.dropWhile p (xs ++ l) = List.dropWhile p l := by
  intro xs
  induction xs with
  | nil => intro l _; simp
  | cons x xs ih =>
    intro l h
    simp only [List.cons_append, List.dropWhile_cons,
      h x (List.mem_cons_self x xs)]
    exact ih l (fun y hy => h y (List.mem_cons_of_mem x hy))

theorem dropExt_append (base ext : List Char) (he : '.' ∉ ext) :
    dropExt (base ++ '.' :: ext) = base := by
  unfold dropExt
  have hr : (base ++ '.' :: ext).reverse =
      ext.reverse ++ '.' :: base.reverse := by
    simp [List.reverse_append]
  rw [hr, if_pos (by simp)]
  rw [dropWhile_append_all _ ext.reverse ('.' :: base.reverse)
    (by intro x hx; simp only [decide_eq_true_eq]
        exact fun hcontra => he (hcontra ▸ List.mem_reverse.mp hx))]
  simp [List.dropWhile_cons]

theorem decDigit_ne (n : ℕ) : decDigit n ≠ '/' ∧ decDigit n ≠ '.' := by
  unfold decDigit
  split_ifs <;> exact ⟨by decide, by decide⟩

theorem natDigits_ne (n : ℕ) :
    ∀ c ∈ natDigits n, c ≠ '/' ∧ c ≠ '.' := by
  induction n using Nat.strong_induction_on with
  | _ n ih =>
    intro c hc
    by_cases h : n < 10
    · rw [natDigits, if_pos h] at hc
      rcases List.mem_singleton.mp hc with rfl
      exact decDigit_ne n
    · rw [natDigits, if_neg h] at hc
      rcases List.mem_append.mp hc with hc' | hc'
      · exact ih (n / 10) (Nat.div_lt_self (by omega) (by omega)) c hc'
      · rcases List.mem_singleton.mp hc' with rfl
        exact decDigit_ne (n % 10)

theorem pad2_ne (num : ℕ) : ∀ c ∈ pad2 num, c ≠ '/' ∧ c ≠ '.' := by
  intro c hc
  unfold pad2 at hc
  split_ifs at hc
  · rcases List.mem_cons.mp hc with rfl | hc'
    · exact ⟨by decide, by decide⟩
    · exact natDigits_ne num c hc'
  · exact natDigits_ne num c hc

theorem stem_chunkFilePath (chunks_dir : List Char) (num : ℕ) :
    stem (chunkFilePath chunks_dir num) = chunkDisplayName num := by
  unfold stem chunkFilePath
  rw [lastComponent_append]
  have hnoslash : '/' ∉ chunkFileBase num := by
    intro hsl
    unfold chunkFileBase at hsl
    rcases List.mem_append.mp hsl with h' | h'
    · rcases List.mem_append.mp h' with h'' | h''
      · revert h''; decide
      · exact (pad2_ne num '/' h'').1 rfl
    · revert h'; decide
  rw [lastComponent_no_slash _ hnoslash]
  have hbase : chunkFileBase num =
      chunkDisplayName num ++ '.' :: "wav".toList := rfl
  rw [hbase, dropExt_append _ _ (by decide)]

/-- C9. The remote display name used for both the reuse lookup and the
upload of a chunk is the stem of the chunk file, `chunk_{num:02d}`, which depends
only on the chunk index — not on the chunks directory (nor on anything
about the source audio, which the name never mentions); consequently, with
reuse enabled, an ACTIVE remote file bearing that name from any earlier run
is returned in place of uploading the bytes of the current chunk (no
upload-initiation call). -/
theorem display_name_from_index_only :
    ∀ (chunks_dir : List Char) (num : ℕ),
      stem (chunkFilePath chunks_dir num) = chunkDisplayName num ∧
      (∀ (env : RemoteEnv) (l₁ : List RemoteFile) (f₀ : RemoteFile)
          (l₂ : List RemoteFile),
        env.listStatus = 200 → (∀ f ∈ env.files, f.uri ≠ "") →
        env.files = l₁ ++ f₀ :: l₂ →
        f₀.displayName = String.mk (chunkDisplayName num) →
        f₀.state = "ACTIVE" →
        (∀ f ∈ l₁, ¬(f.displayName = String.mk (chunkDisplayName num) ∧
          f.state = "ACTIVE")) →
        upload_file env (String.mk (stem (chunkFilePath chunks_dir num)))
            true =
          (some (.ok (f₀.uri, f₀.name)), false)) := by
  intro chunks_dir num
  refine ⟨stem_chunkFilePath chunks_dir num, ?_⟩
  intro env l₁ f₀ l₂ h200 hWF hfiles hdn hact hfirst
  rw [stem_chunkFilePath chunks_dir num]
  exact upload_file_reuse_first_match env (String.mk (chunkDisplayName num))
    h200 hWF l₁ f₀ l₂ hfiles hdn hact hfirst

/-- C9 witness: two different chunks directories yield the same display
name `chunk_03` for chunk 3, and an ACTIVE `chunk_03` left by an earlier
run is reused without uploading. -/
theorem display_name_from_index_only_witness :
    stem (chunkFilePath "audio_chunks".toList 3) = chunkDisplayName 3 ∧
    stem (chunkFilePath "other_run_dir".toList 3) = chunkDisplayName 3 ∧
    upload_file
      ⟨200, [⟨"chunk_03", "ACTIVE", "uriOld", "files/old"⟩],
       200, some "u", 200, "uriNew", "files/new", [(200, "ACTIVE")]⟩
      (String.mk (stem (chunkFilePath "audio_chunks".toList 3))) true =
    (some (.ok ("uriOld", "files/old")), false) :=
  ⟨(display_name_from_index_only "audio_chunks".toList 3).1,
   (display_name_from_index_only "other_run_dir".toList 3).1,
   (display_name_from_index_only "audio_chunks".toList 3).2
     ⟨200, [⟨"chunk_03", "ACTIVE", "uriOld", "files/old"⟩],
      200, some "u", 200, "uriNew", "files/new", [(200, "ACTIVE")]⟩
     [] ⟨"chunk_03", "ACTIVE", "uriOld", "files/old"⟩ [] rfl
     (by intro f hf; fin_cases hf; simp) rfl
     (by
       have h3 : chunkDisplayName 3 = "chunk_03".toList := by
         rw [chunkDisplayName, pad2, if_pos (by norm_num), natDigits,
           if_pos (by norm_num)]
         rfl
       rw [h3]
       rfl)
     rfl (by intro f hf; simp at hf)⟩

/-- C10. When `instructions_file` names a path that does not exist, the
pipeline raises no error (`buildChunkPrompt` is total and takes the
silent-ignore branch) and proceeds with empty custom instructions: the
per-chunk prompt is identical to the one built with no instructions file at
all. -/
theorem missing_instructions_file_ignored :
    ∀ (fs : String → Option String) (f : String) (chunk_prompt : Option String)
      (speaker_list : Option (List String)),
      fs f = none →
      buildChunkPrompt fs chunk_prompt (some f) speaker_list =
        buildChunkPrompt fs chunk_prompt none speaker_list := by
  intro fs f chunk_prompt speaker_list h
  simp only [buildChunkPrompt, h]

/-- C10 witness: an empty directory and the missing file
`transcription_instructions.md` yield exactly the default prompt. -/
theorem missing_instructions_file_ignored_witness :
    buildChunkPrompt (fun _ => none) none
        (some "transcription_instructions.md") none =
      buildChunkPrompt (fun _ => none) none none none :=
  missing_instructions_file_ignored (fun _ => none)
    "transcription_instructions.md" none none rfl

end GeminiTranscribe
